/-
Verification of the mock code-synthesis engine of mockgen.go.

The engine's core (generator.Generate, generator.Output and their helpers) is
shallowly embedded below: every definition mirrors the corresponding Go
function.  Go slices become `List`, Go maps become association lists (with an
explicit iteration-order parameter where the code ranges over a map), the
mutable output buffer becomes a `List String` of emitted lines, and the two
unbounded `for` loops (`allocateIdentifier` and the import-alias
disambiguation loop in `Generate`) become a fuel-bounded search together with
a proof that the fuel always suffices.

Embedding conventions:
  * Characters are compared by code point (`Char.toNat`), which agrees with
    Go's byte-wise string comparison and with `unicode.IsLetter` /
    `unicode.IsDigit` on the ASCII range used throughout.
  * `fmt.Sprintf("%q", s)` is modelled as surrounding `s` with double quotes
    (escaping inside import paths and method names does not arise).
  * Dependencies that are not part of this source file (the `model` package's
    `Type.String` renderer, and the `toolsimports.Process` normalization pass
    invoked by `Output`) are modelled from the specification; their doc
    comments say so explicitly.
-/
import Mathlib

namespace Mockgen

/-! ### Byte-wise string ordering (the order used by `sort.Strings` and by
the import-tidying normalization) -/

/-- Code-point comparison of characters; on ASCII this is exactly Go's
byte-wise comparison. -/
def charLtB (a b : Char) : Bool := a.toNat < b.toNat

/-- Lexicographic comparison of character lists, the order `sort.Strings`
uses (byte-wise for the ASCII strings that occur here). -/
def lexLe : List Char → List Char → Bool
  | [], _ => true
  | _ :: _, [] => false
  | a :: as, b :: bs =>
    if charLtB a b then true else if charLtB b a then false else lexLe as bs

/-- String comparison by the underlying character list. -/
def strLe (a b : String) : Bool := lexLe a.data b.data

/-- The proposition form of `strLe`, used as the sorting relation. -/
def strLeP (a b : String) : Prop := strLe a b = true

theorem char_toNat_inj {a b : Char} (h : a.toNat = b.toNat) : a = b := by
  apply Char.ext; apply UInt32.ext; exact h

theorem string_data_ext {s t : String} (h : s.data = t.data) : s = t := by
  cases s; cases t; exact congrArg String.mk h

theorem string_append_left_cancel {a b c : String} (h : a ++ b = a ++ c) : b = c := by
  have hd := congrArg String.data h
  rw [String.data_append, String.data_append] at hd
  exact string_data_ext (List.append_cancel_left hd)

theorem lexLe_cons_iff (a b : Char) (as bs : List Char) :
    lexLe (a :: as) (b :: bs) = true ↔
      a.toNat < b.toNat ∨ (a.toNat = b.toNat ∧ lexLe as bs = true) := by
  simp only [lexLe, charLtB]
  by_cases h1 : a.toNat < b.toNat <;> by_cases h2 : b.toNat < a.toNat
  · omega
  · simp [h1, h2]
  · simp [h1, h2]; omega
  · have heq : a.toNat = b.toNat := by omega
    simp [h1, h2, heq]

theorem lexLe_total : ∀ as bs : List Char, lexLe as bs = true ∨ lexLe bs as = true
  | [], _ => Or.inl rfl
  | _ :: _, [] => Or.inr rfl
  | a :: as, b :: bs => by
    rw [lexLe_cons_iff, lexLe_cons_iff]
    rcases Nat.lt_trichotomy a.toNat b.toNat with h | h | h
    · exact Or.inl (Or.inl h)
    · rcases lexLe_total as bs with hr | hr
      · exact Or.inl (Or.inr ⟨h, hr⟩)
      · exact Or.inr (Or.inr ⟨h.symm, hr⟩)
    · exact Or.inr (Or.inl h)

theorem lexLe_trans : ∀ as bs cs : List Char,
    lexLe as bs = true → lexLe bs cs = true → lexLe as cs = true
  | [], _, _ => fun _ _ => rfl
  | _ :: _, [], _ => fun h _ => by simp [lexLe] at h
  | _ :: _, _ :: _, [] => fun _ h => by simp [lexLe] at h
  | a :: as, b :: bs, c :: cs => fun h1 h2 => by
    rw [lexLe_cons_iff] at h1 h2 ⊢
    rcases h1 with h1 | ⟨h1e, h1r⟩ <;> rcases h2 with h2 | ⟨h2e, h2r⟩
    · exact Or.inl (Nat.lt_trans h1 h2)
    · exact Or.inl (h2e ▸ h1)
    · exact Or.inl (h1e ▸ h2)
    · exact Or.inr ⟨h1e.trans h2e, lexLe_trans as bs cs h1r h2r⟩

theorem lexLe_antisymm : ∀ as bs : List Char,
    lexLe as bs = true → lexLe bs as = true → as = bs
  | [], [] => fun _ _ => rfl
  | [], _ :: _ => fun _ h => by simp [lexLe] at h
  | _ :: _, [] => fun h _ => by simp [lexLe] at h
  | a :: as, b :: bs => fun h1 h2 => by
    rw [lexLe_cons_iff] at h1 h2
    rcases h1 with h1 | ⟨h1e, h1r⟩ <;> rcases h2 with h2 | ⟨h2e, h2r⟩
    · omega
    · omega
    · omega
    · rw [char_toNat_inj h1e, lexLe_antisymm as bs h1r h2r]

instance : DecidableRel strLeP := fun a b => inferInstanceAs (Decidable (strLe a b = true))

instance : IsTotal String strLeP := ⟨fun a b => lexLe_total a.data b.data⟩

instance : IsTrans String strLeP := ⟨fun a b c => lexLe_trans a.data b.data c.data⟩

instance : IsAntisymm String strLeP :=
  ⟨fun a b h1 h2 => string_data_ext (lexLe_antisymm a.data b.data h1 h2)⟩

/-- Model of `sort.Strings`. -/
def sortStrings (l : List String) : List String := List.insertionSort strLeP l

theorem sortStrings_eq_of_perm {l₁ l₂ : List String} (h : l₁.Perm l₂) :
    sortStrings l₁ = sortStrings l₂ :=
  @List.eq_of_perm_of_sorted String strLeP _ _ _
    (((List.perm_insertionSort strLeP l₁).trans h).trans
      (List.perm_insertionSort strLeP l₂).symm)
    (List.sorted_insertionSort strLeP l₁)
    (List.sorted_insertionSort strLeP l₂)

/-! ### Injectivity of `Nat.repr` (the model of `strconv.Itoa`) -/

/-- Decimal value of a digit-character list, the left inverse of
`Nat.toDigits 10`. -/
def digitsVal (l : List Char) : Nat := l.foldl (fun acc c => acc * 10 + (c.toNat - 48)) 0

theorem digitChar_toNat (d : Nat) (h : d < 10) : (Nat.digitChar d).toNat = 48 + d := by
  interval_cases d <;> decide

theorem toDigitsCore_acc (b : Nat) : ∀ (fuel n : Nat) (ds : List Char),
    Nat.toDigitsCore b fuel n ds = Nat.toDigitsCore b fuel n [] ++ ds := by
  intro fuel
  induction fuel with
  | zero => intro n ds; simp [Nat.toDigitsCore]
  | succ f ih =>
    intro n ds
    simp only [Nat.toDigitsCore]
    by_cases h : n / b = 0
    · simp [h]
    · simp only [h, if_false]
      rw [ih (n / b) (Nat.digitChar (n % b) :: ds), ih (n / b) [Nat.digitChar (n % b)]]
      simp

theorem digitsVal_toDigitsCore : ∀ fuel n : Nat, n < fuel →
    digitsVal (Nat.toDigitsCore 10 fuel n []) = n := by
  intro fuel
  induction fuel with
  | zero => intro n hn; omega
  | succ f ih =>
    intro n hn
    simp only [Nat.toDigitsCore]
    by_cases h : n / 10 = 0
    · have h10 : n < 10 := by omega
      simp only [h, if_pos]
      simp [digitsVal, digitChar_toNat (n % 10) (Nat.mod_lt _ (by omega))]
      omega
    · simp only [h, if_false]
      rw [toDigitsCore_acc]
      have hpos : 0 < n := by
        rcases Nat.eq_zero_or_pos n with h0 | h0
        · subst h0; simp at h
        · exact h0
      have hlt : n / 10 < f := by
        have := Nat.div_lt_self hpos (by omega : (1:Nat) < 10)
        omega
      have ihv := ih (n / 10) hlt
      simp only [digitsVal] at ihv ⊢
      rw [List.foldl_append, ihv]
      simp [digitChar_toNat (n % 10) (Nat.mod_lt _ (by omega))]
      omega

theorem natRepr_inj {m n : Nat} (h : Nat.repr m = Nat.repr n) : m = n := by
  have hd : Nat.toDigits 10 m = Nat.toDigits 10 n := by
    have := congrArg String.data h
    simpa [Nat.repr, List.asString] using this
  have hm := digitsVal_toDigitsCore (m + 1) m (Nat.lt_succ_self m)
  have hn := digitsVal_toDigitsCore (n + 1) n (Nat.lt_succ_self n)
  simp only [Nat.toDigits] at hd
  rw [← hm, ← hn, hd]

/-! ### The bounded search loop

Both unbounded `for` loops of the source — the suffix loop of
`identifierAllocator.allocateIdentifier` and the alias-disambiguation loop of
`generator.Generate` — have the shape: keep the current candidate if it is
acceptable, otherwise move on to the `i`-th generated candidate.  `searchLoop`
is that loop with explicit fuel; the lemmas below show the fuel used in the
embedding always suffices, so the bounded function agrees with the unbounded
Go loop. -/

def searchLoop (bad : String → Bool) (next : Nat → String) : String → Nat → Nat → String
  | cur, _, 0 => cur
  | cur, i, fuel + 1 => if bad cur then searchLoop bad next (next i) (i + 1) fuel else cur

theorem searchLoop_of_good (bad : String → Bool) (next : Nat → String)
    (cur : String) (i fuel : Nat) (h : bad cur = false) :
    searchLoop bad next cur i fuel = cur := by
  cases fuel <;> simp [searchLoop, h]

theorem searchLoop_all_bad (bad : String → Bool) (next : Nat → String) :
    ∀ (fuel : Nat) (cur : String) (i : Nat),
      bad (searchLoop bad next cur i (fuel + 1)) = true →
      bad cur = true ∧ ∀ j, i ≤ j → j < i + fuel → bad (next j) = true := by
  intro fuel
  induction fuel with
  | zero =>
    intro cur i h
    by_cases hc : bad cur = true
    · exact ⟨hc, fun j hj1 hj2 => by omega⟩
    · rw [searchLoop_of_good _ _ _ _ _ (by simpa using hc)] at h
      exact absurd h hc
  | succ f ih =>
    intro cur i h
    by_cases hc : bad cur = true
    · have hstep : searchLoop bad next cur i (f + 1 + 1) =
          searchLoop bad next (next i) (i + 1) (f + 1) := by
        simp [searchLoop, hc]
      rw [hstep] at h
      obtain ⟨h1, h2⟩ := ih (next i) (i + 1) h
      refine ⟨hc, fun j hj1 hj2 => ?_⟩
      rcases Nat.eq_or_lt_of_le hj1 with rfl | hlt
      · exact h1
      · exact h2 j hlt (by omega)
    · rw [searchLoop_of_good _ _ _ _ _ (by simpa using hc)] at h
      exact absurd h hc

theorem exists_good_index (badL : List String) (next : Nat → String)
    (hinj : ∀ a b : Nat, next a = next b → a = b) (i : Nat) :
    ∃ j, i ≤ j ∧ j < i + (badL.length + 1) ∧ next j ∉ badL := by
  by_contra hcon
  push_neg at hcon
  have hsub : ((List.range (badL.length + 1)).map fun k => next (i + k)) ⊆ badL := by
    intro x hx
    simp only [List.mem_map, List.mem_range] at hx
    obtain ⟨k, hk, rfl⟩ := hx
    exact hcon _ (Nat.le_add_right i k) (by omega)
  have hnd : ((List.range (badL.length + 1)).map fun k => next (i + k)).Nodup := by
    refine List.Nodup.map ?_ (List.nodup_range _)
    intro a b hab
    have := hinj _ _ hab
    omega
  have hle := (List.subperm_of_subset hnd hsub).length_le
  simp at hle

theorem searchLoop_not_bad (bad : String → Bool) (badL : List String)
    (hbad : ∀ s, bad s = true → s ∈ badL) (next : Nat → String)
    (hinj : ∀ a b : Nat, next a = next b → a = b)
    (cur : String) (i fuel : Nat) (hfuel : badL.length + 2 ≤ fuel) :
    bad (searchLoop bad next cur i fuel) = false := by
  by_contra hcon
  have hcon' : bad (searchLoop bad next cur i fuel) = true := by
    cases hb : bad (searchLoop bad next cur i fuel)
    · exact absurd hb hcon
    · rfl
  obtain ⟨f, rfl⟩ : ∃ f, fuel = f + 1 := ⟨fuel - 1, by omega⟩
  obtain ⟨_, hall⟩ := searchLoop_all_bad bad next f cur i hcon'
  obtain ⟨j, hj1, hj2, hj3⟩ := exists_good_index badL next hinj i
  exact hj3 (hbad _ (hall j hj1 (by omega)))

theorem searchLoop_least (bad : String → Bool) (next : Nat → String) :
    ∀ (fuel i : Nat) (cur : String) (j : Nat),
      bad cur = true → i ≤ j → j < i + fuel →
      (∀ k, i ≤ k → k < j → bad (next k) = true) → bad (next j) = false →
      searchLoop bad next cur i fuel = next j := by
  intro fuel
  induction fuel with
  | zero => intro i cur j _ h1 h2; omega
  | succ f ih =>
    intro i cur j hc h1 h2 hall hgood
    have hstep : searchLoop bad next cur i (f + 1) =
        searchLoop bad next (next i) (i + 1) f := by
      simp [searchLoop, hc]
    rw [hstep]
    rcases Nat.eq_or_lt_of_le h1 with rfl | hlt
    · exact searchLoop_of_good _ _ _ _ _ hgood
    · exact ih (i + 1) (next i) j (hall i le_rfl hlt) hlt (by omega)
        (fun k hk1 hk2 => hall k (by omega) hk2) hgood

/-! ### `sanitize` (mockgen.go lines 308-329)

The Go source iterates over the runes of `s`, building `t`: while `t` is
still empty a rune is kept only if it is a letter or `'_'`, afterwards only
if it is a letter, digit or `'_'`; every rejected rune contributes a `'_'`.
If the final `t` is exactly `"_"` it becomes `"x"`.  `unicode.IsLetter` /
`unicode.IsDigit` are modelled by `Char.isAlpha` / `Char.isDigit`, which
agree on ASCII. -/

def sanitizeAux : List Char → List Char → List Char
  | t, [] => t
  | t, r :: rs =>
    if t.isEmpty then
      if r.isAlpha || r == '_' then sanitizeAux (t ++ [r]) rs
      else sanitizeAux (t ++ ['_']) rs
    else
      if r.isAlpha || r.isDigit || r == '_' then sanitizeAux (t ++ [r]) rs
      else sanitizeAux (t ++ ['_']) rs

/-- `sanitize` cleans up a string to make a suitable package name
(mockgen.go lines 308-329). -/
def sanitize (s : String) : String :=
  let t := sanitizeAux [] s.data
  if t = ['_'] then "x" else String.mk t

/-- Model of Go's `path.Base`: strip trailing slashes, then keep the part
after the last remaining slash; `""` gives `"."` and an all-slash path gives
`"/"`. -/
def pathBase (p : String) : String :=
  if p = "" then "." else
  let stripped := ((p.data.reverse.dropWhile fun c => c == '/')).reverse
  if stripped = [] then "/" else
  String.mk ((stripped.reverse.takeWhile fun c => !(c == '/')).reverse)

/-- The 25 Go reserved keywords, the set recognized by
`token.Lookup(pkgName).IsKeyword()`. -/
def goKeywords : List String :=
  ["break", "case", "chan", "const", "continue", "default", "defer", "else",
   "fallthrough", "for", "func", "go", "goto", "if", "import", "interface",
   "map", "package", "range", "return", "select", "struct", "switch", "type", "var"]

/-! ### The input data model (`model.Package` and friends)

These mirror the shapes described in the specification's data-model section;
only the fields the synthesis engine reads are carried.  `Method.variadic`
is the separately-carried variadic parameter (excluded from `inParams`,
exactly as `model.Method.Variadic` is excluded from `model.Method.In`). -/

/-- Modelled from the spec: the `model.TypeRepr` rendering dependency.  A type
renders itself given the import-path-to-alias map and the "override" import
path whose qualifier is suppressed (self-package elision); only the two
variants the claims exercise are carried: a predeclared/basic type and a
package-qualified named type. -/
inductive TypeRepr where
  | basic (s : String)
  | named (pkg : String) (name : String)
deriving DecidableEq

/-- Association-list lookup, modelling a Go map read `m[k]`. -/
def lookupStr (l : List (String × String)) (k : String) : Option String :=
  (l.find? fun kv => kv.1 == k).map fun kv => kv.2

/-- Modelled from the spec: `Type.String(pm, pkgOverride)` — "Every Type can
render itself as text given (a) a mapping from import path to local alias,
and (b) an override import path whose qualifier should be suppressed". A
named type from the override package (or with no package) renders
unqualified, otherwise it is qualified by the package's alias. -/
def TypeRepr.render (t : TypeRepr) (pm : List (String × String)) (pkgOverride : String) : String :=
  match t with
  | .basic s => s
  | .named pkg name =>
    if pkg == pkgOverride || pkg == "" then name
    else
      match lookupStr pm pkg with
      | some alias0 => alias0 ++ "." ++ name
      | none => pkg ++ "." ++ name

structure Parameter where
  name : String
  type : TypeRepr
deriving DecidableEq

structure Method where
  name : String
  inParams : List Parameter
  out : List Parameter
  variadic : Option Parameter
deriving DecidableEq

structure TypeParam where
  name : String
  type : TypeRepr
deriving DecidableEq

structure Interface where
  name : String
  methods : List Method
  typeParams : List TypeParam
deriving DecidableEq

/-- The input model.  `imports` is the key set of `pkg.Imports()` (the import
paths referenced by the interfaces' types — modelled from the spec's "set of
required import paths" since the `model` package is not part of this source
file); `dotImports` is `pkg.DotImports`. -/
structure Package where
  name : String
  pkgPath : String
  interfaces : List Interface
  imports : List String
  dotImports : List String
deriving DecidableEq

/-- The configuration of one run: the flag values and command-line data read
by `Generate`/`Output`.  `selfPackageFlag` records whether `-self_package`
was non-empty; `definedImports` is the parsed `-imports` table (path → alias);
`mockNames` the parsed `-mock_names` table. -/
structure Config where
  copyrightHeader : String := ""
  buildConstraint : String := ""
  writeSourceComment : Bool := true
  writeCmdComment : Bool := true
  writePkgComment : Bool := true
  writeGenerateDirective : Bool := false
  typed : Bool := false
  filename : String := ""
  srcPackage : String := ""
  srcInterfaces : String := ""
  cmdName : String := ""
  cmdArgs : List String := []
  osArgs : List String := []
  definedImports : List (String × String) := []
  mockNames : List (String × String) := []
  selfPackageFlag : Bool := false

/-! ### The identifier allocator (mockgen.go lines 842-861) -/

/-- `newIdentifierAllocator`: the allocator's state is the set of taken
names, seeded with the names already used. -/
def newIdentifierAllocator (taken : List String) : List String := taken

/-- `identifierAllocator.allocateIdentifier` (mockgen.go lines 852-861): try
`want`, then `want_2`, `want_3`, … until a free name is found; the chosen
name is added to the taken set.  The Go loop is unbounded; fuel
`taken.length + 2` always suffices (`allocateIdentifier_not_taken`). -/
def allocateIdentifier (taken : List String) (want : String) : String × List String :=
  let id := searchLoop (fun s => taken.contains s)
    (fun i => want ++ "_" ++ Nat.repr i) want 2 (taken.length + 2)
  (id, taken ++ [id])

theorem suffix_candidates_inj (want : String) :
    ∀ a b : Nat, want ++ "_" ++ Nat.repr a = want ++ "_" ++ Nat.repr b → a = b := by
  intro a b h
  exact natRepr_inj (string_append_left_cancel h)

theorem allocateIdentifier_not_taken (taken : List String) (want : String) :
    taken.contains (allocateIdentifier taken want).1 = false := by
  have := searchLoop_not_bad (fun s => taken.contains s) taken
    (fun s hs => by simpa using hs)
    (fun i => want ++ "_" ++ Nat.repr i) (suffix_candidates_inj want)
    want 2 (taken.length + 2) le_rfl
  simpa [allocateIdentifier] using this

/-! ### Argument naming and rendering (mockgen.go lines 578-589, 786-840) -/

/-- `generator.nameExistsAsPackage` (lines 786-795): does `name` occur among
the values of the alias map? -/
def nameExistsAsPackage (pm : List (String × String)) (name : String) : Bool :=
  pm.any fun kv => kv.2 == name

/-- The per-parameter renaming loop of `getArgNames` (lines 806-813), with the
running zero-based index made explicit. -/
def renameParams (pm : List (String × String)) : Nat → List Parameter → List String
  | _, [] => []
  | i, p :: ps =>
    (if p.name == "" || p.name == "_" || nameExistsAsPackage pm p.name
     then "arg" ++ Nat.repr i else p.name) :: renameParams pm (i + 1) ps

/-- `generator.getArgNames` (lines 797-823).  Note the variadic branch tests
only `name == ""` and the package collision — not `name == "_"`. -/
def getArgNames (pm : List (String × String)) (m : Method) (isIn : Bool) : List String :=
  let params := if isIn then m.inParams else m.out
  let argNames := renameParams pm 0 params
  match m.variadic with
  | some v =>
    if isIn then
      argNames ++ [if v.name == "" || nameExistsAsPackage pm v.name
                   then "arg" ++ Nat.repr params.length else v.name]
    else argNames
  | none => argNames

/-- `generator.getArgTypes` (lines 825-840).  The variadic entry is appended
whenever `m.Variadic != nil`, regardless of `in`. -/
def getArgTypes (pm : List (String × String)) (m : Method) (pkgOverride : String)
    (isIn : Bool) : List String :=
  let params := if isIn then m.inParams else m.out
  let argTypes := params.map fun p => p.type.render pm pkgOverride
  match m.variadic with
  | some v => argTypes ++ ["..." ++ v.type.render pm pkgOverride]
  | none => argTypes

/-- `makeArgString` (lines 578-589): `name type` entries joined by `", "`,
omitting the type when the next entry has an identical type. -/
def makeArgString (argNames argTypes : List String) : String :=
  String.intercalate ", " <| (List.range argNames.length).map fun i =>
    if i + 1 < argTypes.length ∧ argTypes.getD i "" = argTypes.getD (i + 1) ""
    then argNames.getD i ""
    else argNames.getD i "" ++ " " ++ argTypes.getD i ""

/-- `generator.mockName` (lines 479-485). -/
def mockNameFor (mockNames : List (String × String)) (typeName : String) : String :=
  match lookupStr mockNames typeName with
  | some n => n
  | none => "Mock" ++ typeName

/-- `generator.formattedTypeParams` (lines 491-510): the long form
`[T1 c1, T2 c2]` and the short form `[T1, T2]`; both empty when there are no
type parameters. -/
def formattedTypeParams (pm : List (String × String)) (it : Interface)
    (pkgOverride : String) : String × String :=
  if it.typeParams.isEmpty then ("", "")
  else
    ("[" ++ String.intercalate ", "
        (it.typeParams.map fun v => v.name ++ " " ++ v.type.render pm pkgOverride) ++ "]",
     "[" ++ String.intercalate ", " (it.typeParams.map fun v => v.name) ++ "]")

/-! ### Import alias resolution (mockgen.go lines 372-438) -/

def gomockImportPath : String := "go.uber.org/mock/gomock"

/-- The disqualification test of the disambiguation loop (line 426):
already taken, a Go keyword, or the name `any`. -/
def badAlias (localNames : List String) (s : String) : Bool :=
  localNames.contains s || goKeywords.contains s || s == "any"

/-- The base package name for a path (lines 409-412): the oracle's answer
(`createPackageMap`, i.e. `go list`) or else the sanitized basename. -/
def fallbackBase (oracle : String → Option String) (pth : String) : String :=
  match oracle pth with
  | some b => b
  | none => sanitize (pathBase pth)

/-- The `for localNames[pkgName] || … { pkgName = base + strconv.Itoa(i); i++ }`
loop (lines 425-429), with fuel that always suffices
(`resolveAlias_not_bad`). -/
def resolveAlias (localNames : List String) (base start : String) : String :=
  searchLoop (badAlias localNames) (fun i => base ++ Nat.repr i) start 0
    (localNames.length + 28)

structure AliasState where
  packageMap : List (String × String) := []
  localNames : List String := []
deriving DecidableEq

/-- One iteration of the `for _, pth := range sortedPaths` loop of `Generate`
(lines 408-438): derive the base name, prefer a `-imports` override,
disambiguate, then record — unless the path is the elided self-import. -/
def aliasStep (pkg : Package) (definedImports : List (String × String))
    (oracle : String → Option String) (outputPackagePath : String)
    (st : AliasState) (pth : String) : AliasState :=
  let base := fallbackBase oracle pth
  let start := match lookupStr definedImports pth with
    | some v => v
    | none => base
  let pkgName := resolveAlias st.localNames base start
  if pth == pkg.pkgPath && outputPackagePath == pkg.pkgPath then st
  else { packageMap := st.packageMap ++ [(pth, pkgName)],
         localNames := st.localNames ++ [pkgName] }

/-- The sorted list of required import paths (lines 372-392): the model's
imports, the gomock runtime, and `reflect` when any interface has a method;
map keys are unique, hence the dedup, and `sort.Strings` makes the order
canonical. -/
def requiredPaths (pkg : Package) : List String :=
  let im := pkg.imports ++ [gomockImportPath]
    ++ (if pkg.interfaces.any fun i => !i.methods.isEmpty then ["reflect"] else [])
  sortStrings im.dedup

/-- The alias-assignment fold of `Generate` (lines 406-438). -/
def buildPackageMap (pkg : Package) (cfg : Config) (oracle : String → Option String)
    (outputPackagePath : String) : AliasState :=
  (requiredPaths pkg).foldl (aliasStep pkg cfg.definedImports oracle outputPackagePath)
    ⟨[], []⟩

theorem alias_candidates_inj (base : String) :
    ∀ a b : Nat, base ++ Nat.repr a = base ++ Nat.repr b → a = b := by
  intro a b h
  exact natRepr_inj (string_append_left_cancel h)

theorem badAlias_mem (localNames : List String) (s : String)
    (h : badAlias localNames s = true) : s ∈ localNames ++ goKeywords ++ ["any"] := by
  simp only [badAlias, Bool.or_eq_true, beq_iff_eq] at h
  simp only [List.mem_append, List.mem_singleton]
  rcases h with (h | h) | h
  · exact Or.inl (Or.inl (by simpa using h))
  · exact Or.inl (Or.inr (by simpa using h))
  · exact Or.inr h

theorem resolveAlias_not_bad (localNames : List String) (base start : String) :
    badAlias localNames (resolveAlias localNames base start) = false := by
  have hlen : (localNames ++ goKeywords ++ ["any"]).length + 2 ≤ localNames.length + 28 := by
    simp [goKeywords]
  exact searchLoop_not_bad (badAlias localNames) (localNames ++ goKeywords ++ ["any"])
    (badAlias_mem localNames) (fun i => base ++ Nat.repr i) (alias_candidates_inj base)
    start 0 (localNames.length + 28) hlen

/-! ### Method sorting (mockgen.go lines 558-565)

`GenerateMockMethods` begins with `sort.Sort(byMethodName(intf.Methods))`,
sorting the model's method slice in place by method name. -/

def methodLeP (a b : Method) : Prop := strLe a.name b.name = true

instance : DecidableRel methodLeP :=
  fun a b => inferInstanceAs (Decidable (strLe a.name b.name = true))

instance : IsTotal Method methodLeP := ⟨fun a b => lexLe_total a.name.data b.name.data⟩

instance : IsTrans Method methodLeP :=
  ⟨fun a b c => lexLe_trans a.name.data b.name.data c.name.data⟩

/-- Model of `sort.Sort(byMethodName(ms))`. -/
def sortedMethods (ms : List Method) : List Method := List.insertionSort methodLeP ms

/-! ### Emission of one mock method (mockgen.go lines 591-656) -/

/-- Model of `fmt.Sprintf("%q", s)` for the paths and method names that occur
here (no characters needing escapes). -/
def quote (s : String) : String := "\"" ++ s ++ "\""

/-- The call-argument construction of `GenerateMockMethod` (lines 618-635):
with a variadic parameter the body declares a `[]any` accumulator seeded with
the fixed arguments and appends each element of the variadic slice; without
one the arguments are passed directly.  Returns (emitted body lines,
`callArgs`, updated allocator). -/
def mockCallArgs (ia : List String) (argNames : List String) (variadic : Option Parameter) :
    List String × String × List String :=
  match variadic with
  | none =>
    ([], if argNames.length > 0 then ", " ++ String.intercalate ", " argNames else "", ia)
  | some _ =>
    let rv := allocateIdentifier ia "varargs"
    let ra := allocateIdentifier rv.2 "a"
    ([ "\t" ++ rv.1 ++ " := []any\x7b" ++ String.intercalate ", " argNames.dropLast ++ "\x7d",
       "\tfor _, " ++ ra.1 ++ " := range " ++ argNames.getLastD "" ++ " \x7b",
       "\t\t" ++ rv.1 ++ " = append(" ++ rv.1 ++ ", " ++ ra.1 ++ ")",
       "\t\x7d" ],
     ", " ++ rv.1 ++ "...", ra.2)

/-- The sequential allocation of `ret0`, `ret1`, … (lines 645-648). -/
def allocRetNames (ia : List String) : Nat → List String → List String × List String
  | _, [] => ([], ia)
  | i, _ :: ts =>
    let r := allocateIdentifier ia ("ret" ++ Nat.repr i)
    let rest := allocRetNames r.2 (i + 1) ts
    (r.1 :: rest.1, rest.2)

/-- The checked type-coercion lines `retN, _ := ret[N].(T)` (line 648). -/
def retLines (idRet : String) : Nat → List String → List String → List String
  | _, [], _ => []
  | _, _ :: _, [] => []
  | i, n :: ns, t :: ts =>
    ("\t" ++ n ++ ", _ := " ++ idRet ++ "[" ++ Nat.repr i ++ "].(" ++ t ++ ")")
      :: retLines idRet (i + 1) ns ts

/-- `generator.GenerateMockMethod` (lines 593-656) as the list of lines it
appends to the buffer. -/
def generateMockMethodLines (pm : List (String × String)) (mockType : String) (m : Method)
    (pkgOverride shortTp : String) : List String :=
  let argNames := getArgNames pm m true
  let argTypes := getArgTypes pm m pkgOverride true
  let argString := makeArgString argNames argTypes
  let rets := m.out.map fun p => p.type.render pm pkgOverride
  let retString0 := String.intercalate ", " rets
  let retString1 := if rets.length > 1 then "(" ++ retString0 ++ ")" else retString0
  let retString := if !(retString1 == "") then " " ++ retString1 else retString1
  let r0 := allocateIdentifier (newIdentifierAllocator argNames) "m"
  let idRecv := r0.1
  let h := mockCallArgs r0.2 argNames m.variadic
  let tail :=
    if m.out.length == 0 then
      ["\t" ++ idRecv ++ ".ctrl.Call(" ++ idRecv ++ ", " ++ quote m.name ++ h.2.1 ++ ")"]
    else
      let r1 := allocateIdentifier h.2.2 "ret"
      let names := allocRetNames r1.2 0 rets
      ("\t" ++ r1.1 ++ " := " ++ idRecv ++ ".ctrl.Call(" ++ idRecv ++ ", "
          ++ quote m.name ++ h.2.1 ++ ")")
        :: retLines r1.1 0 names.1 rets
        ++ ["\treturn " ++ String.intercalate ", " names.1]
  ["// " ++ m.name ++ " mocks base method.",
   "func (" ++ idRecv ++ " *" ++ mockType ++ shortTp ++ ") " ++ m.name ++ "(" ++ argString
     ++ ")" ++ retString ++ " \x7b",
   "\t" ++ idRecv ++ ".ctrl.T.Helper()"]
  ++ h.1 ++ tail ++ ["\x7d"]

/-! ### Emission of one recorder method (mockgen.go lines 658-721) -/

/-- The recorder's call-argument construction (lines 692-710): without a
variadic the arguments pass through; with a variadic, a single argument list
entry (no fixed arguments) is forwarded by direct `...` expansion, while two
or more entries are first assembled into a temporary `[]any` slice. -/
def recorderCallArgs (ia : List String) (argNames : List String) (variadic : Option Parameter) :
    List String × String × List String :=
  match variadic with
  | none =>
    ([], if argNames.length > 0 then ", " ++ String.intercalate ", " argNames else "", ia)
  | some _ =>
    if argNames.length == 1 then ([], ", " ++ argNames.headD "" ++ "...", ia)
    else
      let r := allocateIdentifier ia "varargs"
      ([ "\t" ++ r.1 ++ " := append([]any\x7b" ++ String.intercalate ", " argNames.dropLast
          ++ "\x7d, " ++ argNames.getLastD "" ++ "...)" ],
       ", " ++ r.1 ++ "...", r.2)

/-- `generator.GenerateMockRecorderMethod` (lines 658-721) as the list of
lines it appends to the buffer. -/
def generateMockRecorderMethodLines (cfg : Config) (pm : List (String × String))
    (intf : Interface) (m : Method) (shortTp : String) : List String :=
  let mockType := mockNameFor cfg.mockNames intf.name
  let argNames := getArgNames pm m true
  let argString0 := match m.variadic with
    | none => String.intercalate ", " argNames
    | some _ => String.intercalate ", " argNames.dropLast
  let argString1 := if !(argString0 == "") then argString0 ++ " any" else argString0
  let argString := match m.variadic with
    | none => argString1
    | some _ =>
      (if !(argString1 == "") then argString1 ++ ", " else argString1)
        ++ argNames.getLastD "" ++ " ...any"
  let r0 := allocateIdentifier (newIdentifierAllocator argNames) "mr"
  let idRecv := r0.1
  let h := recorderCallArgs r0.2 argNames m.variadic
  let recordExpr := idRecv ++ ".mock.ctrl.RecordCallWithMethodType(" ++ idRecv ++ ".mock, "
    ++ quote m.name ++ ", reflect.TypeOf((*" ++ mockType ++ shortTp ++ ")(nil)." ++ m.name
    ++ ")" ++ h.2.1 ++ ")"
  ["// " ++ m.name ++ " indicates an expected call of " ++ m.name ++ ".",
   (if cfg.typed then
      "func (" ++ idRecv ++ " *" ++ mockType ++ "MockRecorder" ++ shortTp ++ ") " ++ m.name
        ++ "(" ++ argString ++ ") *" ++ mockType ++ m.name ++ "Call" ++ shortTp ++ " \x7b"
    else
      "func (" ++ idRecv ++ " *" ++ mockType ++ "MockRecorder" ++ shortTp ++ ") " ++ m.name
        ++ "(" ++ argString ++ ") *gomock.Call \x7b"),
   "\t" ++ idRecv ++ ".mock.ctrl.T.Helper()"]
  ++ h.1
  ++ (if cfg.typed then
        ["\tcall := " ++ recordExpr,
         "\treturn &" ++ mockType ++ m.name ++ "Call" ++ shortTp ++ "\x7bCall: call\x7d"]
      else ["\treturn " ++ recordExpr])
  ++ ["\x7d"]

/-- `generator.GenerateMockReturnCallMethod` (lines 723-784), emitted only
under the `-typed` flag. -/
def generateMockReturnCallMethodLines (cfg : Config) (pm : List (String × String))
    (intf : Interface) (m : Method) (pkgOverride longTp shortTp : String) : List String :=
  let mockType := mockNameFor cfg.mockNames intf.name
  let argNames := getArgNames pm m true
  let retNames := getArgNames pm m false
  let argTypes := getArgTypes pm m pkgOverride true
  let retTypes := getArgTypes pm m pkgOverride false
  let argString := String.intercalate ", " argTypes
  let rets := m.out.map fun p => p.type.render pm pkgOverride
  let retString :=
    if rets.length == 1 then " " ++ rets.headD ""
    else if rets.length > 1 then " (" ++ String.intercalate ", " rets ++ ")"
    else ""
  let r0 := allocateIdentifier (newIdentifierAllocator argNames) "c"
  let idRecv := r0.1
  let recvStructName := mockType ++ m.name
  let retArgs := if retNames.length > 0 then String.intercalate ", " retNames else ""
  ["// " ++ mockType ++ m.name ++ "Call wrap *gomock.Call",
   "type " ++ mockType ++ m.name ++ "Call" ++ longTp ++ " struct\x7b",
   "\t*gomock.Call",
   "\x7d",
   "// Return rewrite *gomock.Call.Return",
   "func (" ++ idRecv ++ " *" ++ recvStructName ++ "Call" ++ shortTp ++ ") Return("
     ++ makeArgString retNames retTypes ++ ") *" ++ recvStructName ++ "Call" ++ shortTp ++ " \x7b",
   "\t" ++ idRecv ++ ".Call =  " ++ idRecv ++ ".Call.Return(" ++ retArgs ++ ")",
   "\treturn " ++ idRecv,
   "\x7d",
   "// Do rewrite *gomock.Call.Do",
   "func (" ++ idRecv ++ " *" ++ recvStructName ++ "Call" ++ shortTp ++ ") Do(f func("
     ++ argString ++ ")" ++ retString ++ ") *" ++ recvStructName ++ "Call" ++ shortTp ++ " \x7b",
   "\t" ++ idRecv ++ ".Call = " ++ idRecv ++ ".Call.Do(f)",
   "\treturn " ++ idRecv,
   "\x7d",
   "// DoAndReturn rewrite *gomock.Call.DoAndReturn",
   "func (" ++ idRecv ++ " *" ++ recvStructName ++ "Call" ++ shortTp ++ ") DoAndReturn(f func("
     ++ argString ++ ")" ++ retString ++ ") *" ++ recvStructName ++ "Call" ++ shortTp ++ " \x7b",
   "\t" ++ idRecv ++ ".Call = " ++ idRecv ++ ".Call.DoAndReturn(f)",
   "\treturn " ++ idRecv,
   "\x7d"]

/-- `generator.GenerateMockMethods` (lines 564-576): sort the methods in
place, then per method emit the mock method, the recorder method, and (when
typed) the return-call wrapper, each preceded by a blank line. -/
def generateMockMethodsLines (cfg : Config) (pm : List (String × String)) (mockType : String)
    (intf : Interface) (pkgOverride longTp shortTp : String) : List String :=
  (sortedMethods intf.methods).flatMap fun m =>
    [""] ++ generateMockMethodLines pm mockType m pkgOverride shortTp
    ++ [""] ++ generateMockRecorderMethodLines cfg pm intf m shortTp
    ++ (if cfg.typed then
          [""] ++ generateMockReturnCallMethodLines cfg pm intf m pkgOverride longTp shortTp
        else [])

/-- `generator.GenerateMockInterface` (lines 512-556) as the list of lines it
appends to the buffer. -/
def generateMockInterfaceLines (cfg : Config) (pm : List (String × String)) (intf : Interface)
    (outputPackagePath : String) : List String :=
  let mockType := mockNameFor cfg.mockNames intf.name
  let tp := formattedTypeParams pm intf outputPackagePath
  let longTp := tp.1
  let shortTp := tp.2
  ["",
   "// " ++ mockType ++ " is a mock of " ++ intf.name ++ " interface.",
   "type " ++ mockType ++ longTp ++ " struct \x7b",
   "\tctrl     *gomock.Controller",
   "\trecorder *" ++ mockType ++ "MockRecorder" ++ shortTp,
   "\tisgomock struct\x7b\x7d",
   "\x7d",
   "",
   "// " ++ mockType ++ "MockRecorder is the mock recorder for " ++ mockType ++ ".",
   "type " ++ mockType ++ "MockRecorder" ++ longTp ++ " struct \x7b",
   "\tmock *" ++ mockType ++ shortTp,
   "\x7d",
   "",
   "// New" ++ mockType ++ " creates a new mock instance.",
   "func New" ++ mockType ++ longTp ++ "(ctrl *gomock.Controller) *" ++ mockType
     ++ shortTp ++ " \x7b",
   "\tmock := &" ++ mockType ++ shortTp ++ "\x7bctrl: ctrl\x7d",
   "\tmock.recorder = &" ++ mockType ++ "MockRecorder" ++ shortTp ++ "\x7bmock\x7d",
   "\treturn mock",
   "\x7d",
   "",
   "// EXPECT returns an object that allows the caller to indicate expected use.",
   "func (m *" ++ mockType ++ shortTp ++ ") EXPECT() *" ++ mockType ++ "MockRecorder"
     ++ shortTp ++ " \x7b",
   "\treturn m.recorder",
   "\x7d"]
  ++ generateMockMethodsLines cfg pm mockType intf outputPackagePath longTp shortTp

/-! ### The assembler: `generator.Generate` (mockgen.go lines 331-476) -/

/-- The header comments (lines 337-370): copyright block, build constraint,
"Code generated" marker, source comment, command-echo comment. -/
def headerLines (cfg : Config) : List String :=
  (if !(cfg.copyrightHeader == "") then
     ((cfg.copyrightHeader.splitOn "\n").map fun l => "// " ++ l) ++ [""]
   else [])
  ++ (if !(cfg.buildConstraint == "") then ["//go:build " ++ cfg.buildConstraint, ""] else [])
  ++ ["// Code generated by MockGen. DO NOT EDIT."]
  ++ (if cfg.writeSourceComment then
        [if !(cfg.filename == "") then "// Source: " ++ cfg.filename
         else "// Source: " ++ cfg.srcPackage ++ " (interfaces: " ++ cfg.srcInterfaces ++ ")"]
      else [])
  ++ (if cfg.writeCmdComment then
        ["//", "// Generated by this command:", "//",
         "//\t" ++ String.intercalate " " (cfg.cmdName :: cfg.cmdArgs), "//"]
      else [])

/-- Lines 332-335: `outputPackagePath` is reset unless it came from the
`-self_package` flag or the output package name matches the source's. -/
def effectiveOutputPath (cfg : Config) (pkg : Package)
    (outputPkgName outputPackagePath : String) : String :=
  if !(outputPkgName == pkg.name) && !cfg.selfPackageFlag then "" else outputPackagePath

/-- One emitted aliased import line `\talias "path"` (line 457). -/
def aliasedImportLine (kv : String × String) : String := "\t" ++ kv.2 ++ " " ++ quote kv.1

/-- One emitted dot-import line `\t. "path"` (line 460). -/
def dotLine (p : String) : String := "\t. " ++ quote p

/-- The aliased part of the import block (lines 453-458): the map is ranged
over in the nondeterministic order `order`, skipping the output package's own
path. -/
def aliasedImportLines (outputPackagePath : String)
    (order : List (String × String)) : List String :=
  (order.filter fun kv => !(kv.1 == outputPackagePath)).map aliasedImportLine

/-- The result of a `Generate` run: the buffer contents as lines, the alias
map, and the state of the input model afterwards (`Generate` sorts each
interface's method slice in place; nothing else in the model is written). -/
structure GenResult where
  lines : List String
  packageMap : List (String × String)
  postPkg : Package

/-- `generator.Generate` (lines 331-476).  `mapOrder` is the iteration order
in which Go's `for pkgPath, pkgName := range g.packageMap` (line 453) happens
to enumerate the alias map: any permutation of the map's entries. -/
def generate (cfg : Config) (oracle : String → Option String) (pkg : Package)
    (outputPkgName outputPackagePath0 : String)
    (mapOrder : List (String × String)) : GenResult :=
  let outputPackagePath := effectiveOutputPath cfg pkg outputPkgName outputPackagePath0
  let st := buildPackageMap pkg cfg oracle outputPackagePath
  let pm := st.packageMap
  { lines :=
      headerLines cfg
      ++ [""]
      ++ (if cfg.writePkgComment then
            ["// Package " ++ outputPkgName ++ " is a generated GoMock package."] else [])
      ++ ["package " ++ outputPkgName, "", "import ("]
      ++ aliasedImportLines outputPackagePath mapOrder
      ++ pkg.dotImports.map dotLine
      ++ [")"]
      ++ (if cfg.writeGenerateDirective then
            ["//go:generate " ++ String.intercalate " " cfg.osArgs] else [])
      ++ (pkg.interfaces.flatMap fun intf =>
            generateMockInterfaceLines cfg pm intf outputPackagePath),
    packageMap := pm,
    postPkg := { pkg with
      interfaces := pkg.interfaces.map fun i => { i with methods := sortedMethods i.methods } } }

/-! ### `generator.Output` (mockgen.go lines 863-870) -/

/-- Canonically reorder the import block: sort the lines up to the closing
`)` of the block. -/
def sortBlock (ls : List String) : List String :=
  sortStrings (ls.takeWhile fun l => !(l == ")"))
    ++ ls.dropWhile fun l => !(l == ")")

/-- Modelled from the spec: `generator.Output` pipes the assembled buffer
through `toolsimports.Process` (an external dependency, "equivalent to
automatic import-tidying and canonical formatting"); the aspect relevant
here is that the lines of the `import ( … )` block are put into canonical
sorted order, erasing the map-iteration order they were emitted in. -/
def normalizeImports : List String → List String
  | [] => []
  | l :: ls => if l == "import (" then l :: sortBlock ls else l :: normalizeImports ls

/-- `Generate` followed by `Output`: the emitted file as lines. -/
def outputLines (cfg : Config) (oracle : String → Option String) (pkg : Package)
    (outputPkgName outputPackagePath0 : String)
    (mapOrder : List (String × String)) : List String :=
  normalizeImports (generate cfg oracle pkg outputPkgName outputPackagePath0 mapOrder).lines

/-- The emitted file as one text blob (each `g.p` call ends its line with
`\n`). -/
def outputText (cfg : Config) (oracle : String → Option String) (pkg : Package)
    (outputPkgName outputPackagePath0 : String)
    (mapOrder : List (String × String)) : String :=
  String.intercalate "\n"
    (outputLines cfg oracle pkg outputPkgName outputPackagePath0 mapOrder) ++ "\n"

/-! ### String shape helpers used by the theorems -/

theorem string_append_right_cancel {a b c : String} (h : a ++ c = b ++ c) : a = b := by
  have hd := congrArg String.data h
  rw [String.data_append, String.data_append] at hd
  exact string_data_ext (List.append_cancel_right hd)

theorem head_of_append {p : String} (r : String) {c : Char}
    (h : p.data.head? = some c) : (p ++ r).data.head? = some c := by
  rw [String.data_append]
  cases hp : p.data with
  | nil => rw [hp] at h; exact absurd h (by simp)
  | cons x xs => rw [hp] at h; simp at h; simp [hp, h]

theorem ne_of_head {x y : String} {c d : Char}
    (hx : x.data.head? = some c) (hy : y.data.head? = some d) (hcd : c ≠ d) : x ≠ y := by
  intro he
  subst he
  rw [hx] at hy
  exact hcd (by simpa using hy)

theorem import_marker_head : ("import (" : String).data.head? = some 'i' := by decide

theorem paren_head : (")" : String).data.head? = some ')' := by decide

theorem slash_append_ne_import (p r : String) (hp : p.data.head? = some '/') :
    p ++ r ≠ "import (" :=
  ne_of_head (head_of_append r hp) import_marker_head (by decide)

theorem pkg_append_ne_import (r : String) : "package " ++ r ≠ "import (" :=
  ne_of_head (head_of_append r (show ("package " : String).data.head? = some 'p' by decide))
    import_marker_head (by decide)

theorem tab_line_ne_paren {x : String} (hx : x.data.head? = some '\x09') :
    (!(x == ")")) = true := by
  have hne : x ≠ ")" := ne_of_head hx paren_head (by decide)
  have hb : (x == ")") = false := beq_eq_false_iff_ne.mpr hne
  simp [hb]

theorem mem_of_mem_ite_nil {α : Type} {c : Prop} [Decidable c] {X : List α} {l : α}
    (h : l ∈ if c then X else []) : l ∈ X := by
  split at h
  · exact h
  · exact absurd h (List.not_mem_nil l)

/-! ### C7: the identifier allocator -/

/-- C7: for every preferred name and every finite taken set,
`allocateIdentifier` returns the preferred name when it is free, and
otherwise `preferred_N` for the smallest integer N ≥ 2 whose candidate is
free; the chosen name is appended to the taken set as a side effect, the
chosen name is never an already-taken name, and the search always succeeds
(the Go loop terminates with no error path). -/
theorem c7_allocateIdentifier (taken : List String) (want : String) :
    (allocateIdentifier taken want).2 = taken ++ [(allocateIdentifier taken want).1] ∧
    taken.contains (allocateIdentifier taken want).1 = false ∧
    (taken.contains want = false → (allocateIdentifier taken want).1 = want) ∧
    (taken.contains want = true →
      ∃ N, 2 ≤ N ∧ taken.contains (want ++ "_" ++ Nat.repr N) = false ∧
        (∀ k, 2 ≤ k → k < N → taken.contains (want ++ "_" ++ Nat.repr k) = true) ∧
        (allocateIdentifier taken want).1 = want ++ "_" ++ Nat.repr N) := by
  refine ⟨rfl, allocateIdentifier_not_taken taken want, ?_, ?_⟩
  · intro h
    simp only [allocateIdentifier]
    rw [searchLoop_of_good _ _ _ _ _ h]
  · intro h
    obtain ⟨j, hj1, hj2, hj3⟩ := exists_good_index taken
      (fun i => want ++ "_" ++ Nat.repr i) (suffix_candidates_inj want) 2
    have hPj : 2 ≤ j ∧ taken.contains (want ++ "_" ++ Nat.repr j) = false :=
      ⟨hj1, by simpa using hj3⟩
    have hex : ∃ n, 2 ≤ n ∧ taken.contains (want ++ "_" ++ Nat.repr n) = false := ⟨j, hPj⟩
    refine ⟨Nat.find hex, (Nat.find_spec hex).1, (Nat.find_spec hex).2, ?_, ?_⟩
    · intro k hk1 hk2
      have := Nat.find_min hex hk2
      cases hc : taken.contains (want ++ "_" ++ Nat.repr k)
      · exact absurd ⟨hk1, hc⟩ this
      · rfl
    · have hfind_le : Nat.find hex ≤ j := Nat.find_min' hex hPj
      simp only [allocateIdentifier]
      refine searchLoop_least _ _ (taken.length + 2) 2 want (Nat.find hex) h
        (Nat.find_spec hex).1 (by omega) ?_ (Nat.find_spec hex).2
      intro k hk1 hk2
      have := Nat.find_min hex hk2
      cases hc : taken.contains (want ++ "_" ++ Nat.repr k)
      · exact absurd ⟨hk1, hc⟩ this
      · rfl

/-- Witness for C7 at concrete inputs: `m` is free in `[]` so it is returned
as is; `m` is taken in `["m"]` so `m_2` is returned; both results are
recorded in the taken set. -/
theorem c7_witness :
    (allocateIdentifier [] "m").1 = "m" ∧
    (allocateIdentifier ["m"] "m").1 = "m_2" ∧
    (allocateIdentifier ["m"] "m").2 = ["m", "m_2"] := by
  have h0 := c7_allocateIdentifier [] "m"
  have h1 := c7_allocateIdentifier ["m"] "m"
  have e0 : (allocateIdentifier [] "m").1 = "m" := h0.2.2.1 (by decide)
  obtain ⟨N, hN2, hNfree, hNmin, hNeq⟩ := h1.2.2.2 (by decide)
  have hN : N = 2 := by
    by_contra hne
    have h2lt : 2 < N := by omega
    have hcand := hNmin 2 le_rfl h2lt
    rw [show "m" ++ "_" ++ Nat.repr 2 = "m_2" by decide] at hcand
    exact absurd hcand (by decide)
  have e1 : (allocateIdentifier ["m"] "m").1 = "m_2" := by
    rw [hNeq, hN]; decide
  exact ⟨e0, e1, by rw [h1.1, e1]; rfl⟩

/-! ### C2: alias uniqueness -/

theorem badAlias_false_parts {localNames : List String} {s : String}
    (h : badAlias localNames s = false) :
    localNames.contains s = false ∧ goKeywords.contains s = false ∧ s ≠ "any" := by
  simp only [badAlias, Bool.or_eq_false_iff] at h
  exact ⟨h.1.1, h.1.2, by simpa using h.2⟩

/-- The fold invariant behind C2: `localNames` is exactly the list of aliases
assigned so far, no alias repeats, and no alias is a keyword or `any`. -/
def AliasInv (st : AliasState) : Prop :=
  st.localNames = st.packageMap.map Prod.snd ∧
  st.localNames.Nodup ∧
  ∀ s ∈ st.localNames, goKeywords.contains s = false ∧ s ≠ "any"

theorem aliasStep_inv (pkg : Package) (di : List (String × String))
    (oracle : String → Option String) (outPath : String) (st : AliasState) (pth : String)
    (h : AliasInv st) : AliasInv (aliasStep pkg di oracle outPath st pth) := by
  obtain ⟨h1, h2, h3⟩ := h
  simp only [aliasStep]
  generalize hres : resolveAlias st.localNames (fallbackBase oracle pth)
    (match lookupStr di pth with | some v => v | none => fallbackBase oracle pth) = pkgName
  have hgood := resolveAlias_not_bad st.localNames (fallbackBase oracle pth)
    (match lookupStr di pth with | some v => v | none => fallbackBase oracle pth)
  rw [hres] at hgood
  obtain ⟨hc1, hc2, hc3⟩ := badAlias_false_parts hgood
  by_cases hskip : (pth == pkg.pkgPath && outPath == pkg.pkgPath) = true
  · simp only [hskip, if_true]
    exact ⟨h1, h2, h3⟩
  · simp only [Bool.not_eq_true] at hskip
    simp only [hskip, Bool.false_eq_true, if_false]
    refine ⟨?_, ?_, ?_⟩
    · simp [h1]
    · rw [List.nodup_append]
      refine ⟨h2, List.nodup_singleton _, ?_⟩
      intro x hx hmem
      simp only [List.mem_singleton] at hmem
      rw [hmem] at hx
      have hcm : st.localNames.contains pkgName = true := by simpa using hx
      rw [hc1] at hcm
      exact absurd hcm (by simp)
    · intro s hs
      rcases List.mem_append.mp hs with hs | hs
      · exact h3 s hs
      · simp only [List.mem_singleton] at hs
        subst hs
        exact ⟨hc2, hc3⟩

theorem foldl_alias_inv (pkg : Package) (di : List (String × String))
    (oracle : String → Option String) (outPath : String) :
    ∀ (paths : List String) (st : AliasState), AliasInv st →
      AliasInv (paths.foldl (aliasStep pkg di oracle outPath) st) := by
  intro paths
  induction paths with
  | nil => intro st h; exact h
  | cons p ps ih =>
    intro st h
    exact ih _ (aliasStep_inv pkg di oracle outPath st p h)

/-- C2: for every input model, no two entries of the alias map share an
alias (so distinct import paths always receive distinct local aliases), and
no assigned alias is a Go reserved keyword or the name `any`. -/
theorem c2_alias_uniqueness (pkg : Package) (cfg : Config)
    (oracle : String → Option String) (outPath : String) :
    ((buildPackageMap pkg cfg oracle outPath).packageMap.map Prod.snd).Nodup ∧
    ((buildPackageMap pkg cfg oracle outPath).packageMap.all fun kv =>
      !goKeywords.contains kv.2 && !(kv.2 == "any")) = true := by
  have hinv : AliasInv (buildPackageMap pkg cfg oracle outPath) :=
    foldl_alias_inv pkg cfg.definedImports oracle outPath (requiredPaths pkg) ⟨[], []⟩
      ⟨rfl, List.nodup_nil, fun s hs => absurd hs (List.not_mem_nil s)⟩
  obtain ⟨h1, h2, h3⟩ := hinv
  refine ⟨h1 ▸ h2, ?_⟩
  rw [List.all_eq_true]
  intro kv hkv
  have hmem : kv.2 ∈ (buildPackageMap pkg cfg oracle outPath).localNames := by
    rw [h1]; exact List.mem_map_of_mem Prod.snd hkv
  obtain ⟨hk, ha⟩ := h3 kv.2 hmem
  have hk2 : kv.2 ∉ goKeywords := by simpa using hk
  simp [hk2, ha]

/-! ### C6: parameter renaming -/

theorem renameParams_length (pm : List (String × String)) :
    ∀ (ps : List Parameter) (i : Nat), (renameParams pm i ps).length = ps.length
  | [], _ => rfl
  | p :: ps, i => by
    simp [renameParams, renameParams_length pm ps (i + 1)]

theorem renameParams_get (pm : List (String × String)) :
    ∀ (ps : List Parameter) (i j : Nat) (p : Parameter), ps[j]? = some p →
      (renameParams pm i ps)[j]? =
        some (if p.name == "" || p.name == "_" || nameExistsAsPackage pm p.name
              then "arg" ++ Nat.repr (i + j) else p.name) := by
  intro ps
  induction ps with
  | nil => intro i j p hp; simp at hp
  | cons q ps ih =>
    intro i j p hp
    cases j with
    | zero =>
      simp only [List.getElem?_cons_zero, Option.some.injEq] at hp
      subst hp
      simp [renameParams]
    | succ j =>
      simp only [List.getElem?_cons_succ] at hp
      simp only [renameParams, List.getElem?_cons_succ]
      rw [ih (i + 1) j p hp]
      have harith : i + 1 + j = i + (j + 1) := by omega
      rw [harith]

/-- C6 (amended): an input or output parameter whose name is empty, is `_`,
or equals an assigned import alias is renamed `argN` with N its zero-based
position, and parameters with other names keep theirs; the separately-carried
variadic input parameter is renamed on an empty name or an alias collision
only — a variadic named `_` keeps its name. -/
theorem c6_arg_renaming (pm : List (String × String)) (m : Method) (isIn : Bool) :
    (getArgNames pm m isIn).length =
      (if isIn then m.inParams else m.out).length
        + (if isIn && m.variadic.isSome then 1 else 0) ∧
    (∀ (i : Nat) (p : Parameter), (if isIn then m.inParams else m.out)[i]? = some p →
      (getArgNames pm m isIn)[i]? =
        some (if p.name == "" || p.name == "_" || nameExistsAsPackage pm p.name
              then "arg" ++ Nat.repr i else p.name)) ∧
    (∀ v : Parameter, m.variadic = some v → isIn = true →
      (getArgNames pm m isIn)[(if isIn then m.inParams else m.out).length]? =
        some (if v.name == "" || nameExistsAsPackage pm v.name
              then "arg" ++ Nat.repr (if isIn then m.inParams else m.out).length
              else v.name)) := by
  refine ⟨?_, ?_, ?_⟩
  · simp only [getArgNames]
    cases hv : m.variadic with
    | none => simp [renameParams_length, hv]
    | some v =>
      cases isIn with
      | true => simp [renameParams_length]
      | false => simp [renameParams_length]
  · intro i p hp
    have hi : i < (if isIn then m.inParams else m.out).length := by
      by_contra hge
      rw [List.getElem?_eq_none (by omega)] at hp
      exact absurd hp (by simp)
    have hget := renameParams_get pm (if isIn then m.inParams else m.out) 0 i p hp
    rw [Nat.zero_add] at hget
    cases hv : m.variadic with
    | none => simpa [getArgNames, hv] using hget
    | some v =>
      cases isIn with
      | true =>
        have hlen : i < (renameParams pm 0 m.inParams).length := by
          rw [renameParams_length]; simpa using hi
        simp only [getArgNames, hv, if_true]
        rw [List.getElem?_append, if_pos hlen]
        simpa using hget
      | false => simpa [getArgNames, hv] using hget
  · intro v hv hin
    subst hin
    simp only [getArgNames, hv, if_true]
    rw [List.getElem?_append_right (by rw [renameParams_length])]
    rw [renameParams_length]
    simp

/-- The C6 counterexample input: a method whose variadic parameter is the
placeholder `_`. -/
def underscoreVariadicMethod : Method :=
  { name := "F", inParams := [], out := [],
    variadic := some { name := "_", type := TypeRepr.basic "int" } }

/-- C6 counterexample: the claim says a variadic parameter named `_` is
renamed `arg0`, but `getArgNames` keeps the placeholder name, because the
variadic branch omits the `name == "_"` test. -/
theorem c6_counterexample :
    getArgNames [] underscoreVariadicMethod true = ["_"] ∧
    getArgNames [] underscoreVariadicMethod true ≠ ["arg0"] := by decide

/-- The witness input for C6: a fixed parameter colliding with an assigned
alias and a variadic parameter named `_`. -/
def c6SampleMethod : Method :=
  { name := "F", inParams := [{ name := "q", type := TypeRepr.basic "int" }], out := [],
    variadic := some { name := "_", type := TypeRepr.basic "int" } }

/-- Witness for C6: with alias map `[("p", "q")]` the fixed parameter `q`
is renamed `arg0` (alias collision) and the variadic `_` is kept. -/
theorem c6_witness :
    (getArgNames [("p", "q")] c6SampleMethod true)[0]? = some "arg0" ∧
    (getArgNames [("p", "q")] c6SampleMethod true)[1]? = some "_" := by
  have h := c6_arg_renaming [("p", "q")] c6SampleMethod true
  refine ⟨?_, ?_⟩
  · have h2 := h.2.1 0 { name := "q", type := TypeRepr.basic "int" } (by decide)
    exact h2.trans (by decide)
  · have h3 := h.2.2 { name := "_", type := TypeRepr.basic "int" } rfl rfl
    exact h3.trans (by decide)

/-! ### C8: the sanitized-basename fallback -/

/-- Characters admissible in a sanitized alias. -/
def goodChar (c : Char) : Bool := c.isAlpha || c.isDigit || c == '_'

/-- The first character of a sanitized alias must be a letter or underscore. -/
def headOk : List Char → Bool
  | [] => true
  | c :: _ => c.isAlpha || c == '_'

theorem sanitizeAux_length : ∀ (l t : List Char), (sanitizeAux t l).length = t.length + l.length
  | [], t => by simp [sanitizeAux]
  | r :: rs, t => by
    simp only [sanitizeAux]
    split
    · split
      · rw [sanitizeAux_length rs (t ++ [r])]; simp; omega
      · rw [sanitizeAux_length rs (t ++ ['_'])]; simp; omega
    · split
      · rw [sanitizeAux_length rs (t ++ [r])]; simp; omega
      · rw [sanitizeAux_length rs (t ++ ['_'])]; simp; omega

theorem headOk_append (t : List Char) (c : Char) (h : t ≠ []) :
    headOk (t ++ [c]) = headOk t := by
  cases t with
  | nil => exact absurd rfl h
  | cons x xs => rfl

theorem sanitizeAux_good : ∀ (l t : List Char),
    t.all goodChar = true → headOk t = true →
    (sanitizeAux t l).all goodChar = true ∧ headOk (sanitizeAux t l) = true
  | [], _ => fun h1 h2 => ⟨h1, h2⟩
  | r :: rs, t => fun h1 h2 => by
    simp only [sanitizeAux]
    split
    · next he =>
        have ht : t = [] := by simpa using he
        subst ht
        split
        · next hr =>
            refine sanitizeAux_good rs [r] ?_ ?_
            · have hg : goodChar r = true := by
                simp only [goodChar]
                rw [Bool.or_eq_true] at hr
                rcases hr with h | h <;> simp [h]
              simp [hg]
            · simpa [headOk] using hr
        · exact sanitizeAux_good rs ['_'] (by decide) (by decide)
    · next he =>
        have ht : t ≠ [] := by
          intro hcon
          subst hcon
          simp at he
        split
        · next hr =>
            refine sanitizeAux_good rs (t ++ [r]) ?_ ?_
            · rw [List.all_append, h1]
              have hg : goodChar r = true := by simpa [goodChar] using hr
              simp [hg]
            · rw [headOk_append t r ht]; exact h2
        · refine sanitizeAux_good rs (t ++ ['_']) ?_ ?_
          · rw [List.all_append, h1]; decide
          · rw [headOk_append t '_' ht]; exact h2

theorem sanitize_length (s : String) : (sanitize s).length = s.length := by
  have hl := sanitizeAux_length s.data []
  simp only [List.length_nil, Nat.zero_add] at hl
  simp only [sanitize]
  split
  · next heq =>
      have h1 : s.data.length = 1 := by rw [← hl, heq]; rfl
      show ("x" : String).length = s.length
      show 1 = s.data.length
      omega
  · show (sanitizeAux [] s.data).length = s.length
    exact hl

theorem sanitize_good (s : String) :
    (sanitize s).data.all goodChar = true ∧ headOk (sanitize s).data = true := by
  have h := sanitizeAux_good s.data [] rfl rfl
  simp only [sanitize]
  split
  · exact ⟨by decide, by decide⟩
  · exact h

/-- The fallback computation as claimed by the specification: strip the
characters outside `[A-Za-z0-9_]`, force a leading digit to `_`, and collapse
an all-invalid input to the single-letter placeholder. -/
def sanitizeClaimed (s : String) : String :=
  let kept := s.data.filter fun c => c.isAlpha || c.isDigit || c == '_'
  let forced := match kept with
    | [] => ([] : List Char)
    | c :: cs => if c.isAlpha || c == '_' then c :: cs else '_' :: cs
  if forced.isEmpty then "x" else String.mk forced

/-- C8 counterexample: `sanitize` does not strip invalid characters, it
replaces them with `_` (`"a-b"` becomes `"a_b"`, not `"ab"`), and an input
made entirely of invalid characters collapses to the placeholder only when it
is a single character (`"--"` becomes `"__"`, not a one-letter placeholder). -/
theorem c8_counterexample :
    sanitize "a-b" ≠ sanitizeClaimed "a-b" ∧ sanitize "a-b" = "a_b" ∧
    sanitizeClaimed "a-b" = "ab" ∧
    sanitize "--" ≠ sanitizeClaimed "--" ∧ sanitize "--" = "__" ∧
    sanitizeClaimed "--" = "x" := by decide

/-- C8 (amended): when the oracle yields no name the fallback alias is
`sanitize` of the path's final segment, where `sanitize` replaces (never
strips) each character outside the letter/digit/underscore set with `_`
(preserving length), forces the first character to a letter or underscore,
and turns the single string `"_"` into the placeholder `"x"` (so `"-"`
collapses to `"x"` but `"--"` becomes `"__"`). -/
theorem c8_fallback_sanitize (oracle : String → Option String) (pth s : String) :
    (oracle pth = none → fallbackBase oracle pth = sanitize (pathBase pth)) ∧
    (sanitize s).length = s.length ∧
    (sanitize s).data.all goodChar = true ∧
    headOk (sanitize s).data = true ∧
    sanitize "-" = "x" ∧ sanitize "--" = "__" := by
  refine ⟨?_, sanitize_length s, (sanitize_good s).1, (sanitize_good s).2,
    by decide, by decide⟩
  intro h
  simp [fallbackBase, h]

/-- Witness for C8 at concrete inputs: with an oracle that knows nothing, the
alias for `x/y-z` falls back to the sanitized basename `y_z`; and a
digit-led input sanitizes to admissible characters only. -/
theorem c8_witness :
    fallbackBase (fun _ => none) "x/y-z" = "y_z" ∧
    (sanitize "9ab").data.all goodChar = true := by
  have h := c8_fallback_sanitize (fun _ => none) "x/y-z" "9ab"
  exact ⟨(h.1 rfl).trans (by decide), h.2.2.1⟩

/-! ### C3: the engine mutates the model by sorting methods in place -/

/-- Concrete input for the C3 counterexample: one interface whose methods
are listed in non-alphabetical order. -/
def unsortedMethodsPackage : Package :=
  ⟨"p", "example.com/p",
    [⟨"I", [⟨"b", [], [], none⟩, ⟨"a", [], [], none⟩], []⟩], [], []⟩

/-- An all-default configuration. -/
def plainConfig : Config := {}

/-- An oracle that knows no package names. -/
def emptyOracle : String → Option String := fun _ => none

/-- C3 counterexample: after `Generate`, the model's method sequence for `I`
is `[a, b]` — not the `[b, a]` it was handed — so the input model is not left
exactly as it was (`sort.Sort(byMethodName(intf.Methods))` reorders the
slice in place). -/
theorem c3_counterexample :
    ((generate plainConfig emptyOracle unsortedMethodsPackage "mock_p" "" []).postPkg.interfaces.map
        fun i => i.methods.map fun mm => mm.name) = [["a", "b"]] ∧
    (unsortedMethodsPackage.interfaces.map fun i => i.methods.map fun mm => mm.name)
      = [["b", "a"]] ∧
    (generate plainConfig emptyOracle unsortedMethodsPackage "mock_p" "" []).postPkg
      ≠ unsortedMethodsPackage := by decide

/-- C3 (amended): `Generate` leaves every part of the input model unchanged
except each interface's method sequence, which it sorts in place by method
name: afterwards each interface holds a permutation of its original methods,
in name-sorted order, with every method's own data intact. -/
theorem c3_mutation_only_sorts_methods (cfg : Config) (oracle : String → Option String)
    (pkg : Package) (outputPkgName outputPackagePath0 : String)
    (mapOrder : List (String × String)) :
    ((generate cfg oracle pkg outputPkgName outputPackagePath0 mapOrder).postPkg.name
        = pkg.name) ∧
    ((generate cfg oracle pkg outputPkgName outputPackagePath0 mapOrder).postPkg.pkgPath
        = pkg.pkgPath) ∧
    ((generate cfg oracle pkg outputPkgName outputPackagePath0 mapOrder).postPkg.imports
        = pkg.imports) ∧
    ((generate cfg oracle pkg outputPkgName outputPackagePath0 mapOrder).postPkg.dotImports
        = pkg.dotImports) ∧
    ((generate cfg oracle pkg outputPkgName outputPackagePath0 mapOrder).postPkg.interfaces.length
        = pkg.interfaces.length) ∧
    (∀ (i : Nat) (a : Interface), pkg.interfaces[i]? = some a →
      (generate cfg oracle pkg outputPkgName outputPackagePath0 mapOrder).postPkg.interfaces[i]?
          = some { a with methods := sortedMethods a.methods } ∧
        (sortedMethods a.methods).Perm a.methods ∧
        List.Sorted methodLeP (sortedMethods a.methods)) := by
  refine ⟨rfl, rfl, rfl, rfl, by simp [generate], ?_⟩
  intro i a ha
  refine ⟨?_, List.perm_insertionSort methodLeP a.methods,
    List.sorted_insertionSort methodLeP a.methods⟩
  simp only [generate]
  rw [List.getElem?_map, ha]
  rfl

/-- Witness for C3's amended statement at the concrete two-method package. -/
theorem c3_witness :
    (generate plainConfig emptyOracle unsortedMethodsPackage "mock_p" "" []).postPkg.interfaces[0]?
      = some ⟨"I", [⟨"a", [], [], none⟩, ⟨"b", [], [], none⟩], []⟩ := by
  have h := (c3_mutation_only_sorts_methods plainConfig emptyOracle unsortedMethodsPackage
      "mock_p" "" []).2.2.2.2.2 0
      ⟨"I", [⟨"b", [], [], none⟩, ⟨"a", [], [], none⟩], []⟩ (by decide)
  exact h.1.trans (by decide)

/-! ### C4: interfaces are visited in model order, methods in sorted order -/

/-- Concrete input for the C4 counterexample: interfaces listed as B then A. -/
def unsortedInterfacesPackage : Package :=
  ⟨"p", "example.com/p", [⟨"B", [], []⟩, ⟨"A", [], []⟩], [], []⟩

/-- C4 counterexample: for a model listing interfaces B then A, the emitted
file contains the MockB block strictly before the MockA block even though
`"B"` does not precede `"A"` in sorted order — the assembler iterates
`pkg.Interfaces` in model order and never sorts it. -/
theorem c4_counterexample :
    ("// MockB is a mock of B interface."
        ∈ (generate plainConfig emptyOracle unsortedInterfacesPackage "mock_p" "" []).lines) ∧
    ("// MockA is a mock of A interface."
        ∈ (generate plainConfig emptyOracle unsortedInterfacesPackage "mock_p" "" []).lines) ∧
    (generate plainConfig emptyOracle unsortedInterfacesPackage "mock_p" "" []).lines.indexOf
        "// MockB is a mock of B interface."
      < (generate plainConfig emptyOracle unsortedInterfacesPackage "mock_p" "" []).lines.indexOf
        "// MockA is a mock of A interface." ∧
    ¬ strLeP "B" "A" := by decide

/-- C4 (amended): the assembler emits one block per interface following the
model's interface order (not a sorted order), and within each interface the
per-method blocks follow ascending method-name order: the emitted method
sequence is a name-sorted permutation of the interface's methods. -/
theorem c4_emission_order (cfg : Config) (oracle : String → Option String) (pkg : Package)
    (outputPkgName outputPackagePath0 : String) (mapOrder : List (String × String))
    (pm : List (String × String)) (mockType : String)
    (intf : Interface) (pkgOverride longTp shortTp : String) :
    (∃ pre : List String,
      (generate cfg oracle pkg outputPkgName outputPackagePath0 mapOrder).lines =
        pre ++ (pkg.interfaces.flatMap fun i =>
          generateMockInterfaceLines cfg
            (generate cfg oracle pkg outputPkgName outputPackagePath0 mapOrder).packageMap i
            (effectiveOutputPath cfg pkg outputPkgName outputPackagePath0))) ∧
    (∃ ms : List Method, ms.Perm intf.methods ∧ List.Sorted methodLeP ms ∧
      generateMockMethodsLines cfg pm mockType intf pkgOverride longTp shortTp =
        ms.flatMap fun m =>
          [""] ++ generateMockMethodLines pm mockType m pkgOverride shortTp
          ++ [""] ++ generateMockRecorderMethodLines cfg pm intf m shortTp
          ++ (if cfg.typed then
                [""] ++ generateMockReturnCallMethodLines cfg pm intf m pkgOverride longTp shortTp
              else [])) := by
  constructor
  · exact ⟨_, rfl⟩
  · exact ⟨sortedMethods intf.methods, List.perm_insertionSort methodLeP intf.methods,
      List.sorted_insertionSort methodLeP intf.methods, rfl⟩

/-! ### C5: variadic handling in the forwarding and recorder methods -/

theorem getArgNames_length_variadic (pm : List (String × String)) (m : Method)
    (v : Parameter) (hv : m.variadic = some v) :
    (getArgNames pm m true).length = m.inParams.length + 1 := by
  simp [getArgNames, hv, renameParams_length]

/-- C5: for a method `m` with a variadic parameter and at least two fixed
parameters, the forwarding method's body declares a `[]any` accumulator
seeded with the fixed argument names and appends each element of the variadic
slice in iteration order; the recorder for the same method (fixed arguments
present) first assembles a temporary slice, while the recorder for a method
with one single variadic argument and no fixed arguments forwards it via
direct `...` expansion and emits no accumulator construction at all. -/
theorem c5_variadic_handling (cfg : Config) (pm : List (String × String)) (mockType : String)
    (intf : Interface) (m mSingle : Method) (pkgOverride shortTp : String)
    (v vs : Parameter)
    (hv : m.variadic = some v) (hfix : 2 ≤ m.inParams.length)
    (hvs : mSingle.variadic = some vs) (hnofix : mSingle.inParams = []) :
    (let ns := getArgNames pm m true
     let rm := allocateIdentifier (newIdentifierAllocator ns) "m"
     let rv := allocateIdentifier rm.2 "varargs"
     let ra := allocateIdentifier rv.2 "a"
     ("\t" ++ rv.1 ++ " := []any\x7b" ++ String.intercalate ", " ns.dropLast ++ "\x7d")
        ∈ generateMockMethodLines pm mockType m pkgOverride shortTp ∧
     ("\tfor _, " ++ ra.1 ++ " := range " ++ ns.getLastD "" ++ " \x7b")
        ∈ generateMockMethodLines pm mockType m pkgOverride shortTp ∧
     ("\t\t" ++ rv.1 ++ " = append(" ++ rv.1 ++ ", " ++ ra.1 ++ ")")
        ∈ generateMockMethodLines pm mockType m pkgOverride shortTp) ∧
    (let ns := getArgNames pm m true
     let rr := allocateIdentifier (newIdentifierAllocator ns) "mr"
     let rv := allocateIdentifier rr.2 "varargs"
     recorderCallArgs rr.2 ns m.variadic =
       (["\t" ++ rv.1 ++ " := append([]any\x7b" ++ String.intercalate ", " ns.dropLast
           ++ "\x7d, " ++ ns.getLastD "" ++ "...)"],
        ", " ++ rv.1 ++ "...", rv.2) ∧
     ("\t" ++ rv.1 ++ " := append([]any\x7b" ++ String.intercalate ", " ns.dropLast
         ++ "\x7d, " ++ ns.getLastD "" ++ "...)")
        ∈ generateMockRecorderMethodLines cfg pm intf m shortTp) ∧
    (let ns := getArgNames pm mSingle true
     let rr := allocateIdentifier (newIdentifierAllocator ns) "mr"
     recorderCallArgs rr.2 ns mSingle.variadic
       = ([], ", " ++ ns.headD "" ++ "...", rr.2)) := by
  have hlen : (getArgNames pm m true).length = m.inParams.length + 1 :=
    getArgNames_length_variadic pm m v hv
  have hne1 : ((getArgNames pm m true).length == 1) = false := by
    have : (getArgNames pm m true).length ≠ 1 := by omega
    simpa using this
  have hlenS : (getArgNames pm mSingle true).length = 1 := by
    rw [getArgNames_length_variadic pm mSingle vs hvs, hnofix]
    rfl
  have heq1 : ((getArgNames pm mSingle true).length == 1) = true := by
    simp [hlenS]
  refine ⟨⟨?_, ?_, ?_⟩, ⟨?_, ?_⟩, ?_⟩
  · simp only [generateMockMethodLines, mockCallArgs, hv]
    simp
  · simp only [generateMockMethodLines, mockCallArgs, hv]
    simp
  · simp only [generateMockMethodLines, mockCallArgs, hv]
    simp
  · simp only [recorderCallArgs, hv, hne1]
    simp
  · simp only [generateMockRecorderMethodLines, recorderCallArgs, hv, hne1]
    simp
  · simp only [recorderCallArgs, hvs, heq1]
    simp

/-- The C5 witness method with two fixed parameters and a variadic one. -/
def twoFixedVariadicMethod : Method :=
  ⟨"Save", [⟨"a", TypeRepr.basic "string"⟩, ⟨"b", TypeRepr.basic "string"⟩], [],
    some ⟨"c", TypeRepr.basic "int"⟩⟩

/-- The C5 witness method with a single variadic argument and no fixed
parameters. -/
def singleVariadicMethod : Method :=
  ⟨"Bcast", [], [], some ⟨"xs", TypeRepr.basic "int"⟩⟩

/-- Witness for C5 at the concrete methods: the forwarding body contains the
seeded accumulator, the mixed-arity recorder builds a temporary slice, and
the single-variadic recorder passes the argument straight through. -/
theorem c5_witness :
    ("\tvarargs := []any\x7ba, b\x7d"
        ∈ generateMockMethodLines [] "MockI" twoFixedVariadicMethod "" "") ∧
    ("\tvarargs := append([]any\x7ba, b\x7d, c...)"
        ∈ generateMockRecorderMethodLines plainConfig [] ⟨"I", [], []⟩
            twoFixedVariadicMethod "") ∧
    (recorderCallArgs ["xs", "mr"] ["xs"] singleVariadicMethod.variadic
        = ([], ", xs...", ["xs", "mr"])) := by
  have h := c5_variadic_handling plainConfig [] "MockI" ⟨"I", [], []⟩
    twoFixedVariadicMethod singleVariadicMethod "" ""
    ⟨"c", TypeRepr.basic "int"⟩ ⟨"xs", TypeRepr.basic "int"⟩ rfl (by decide) rfl rfl
  exact ⟨h.1.1, h.2.1.2, h.2.2⟩

/-! ### C9: self-import elision -/

theorem effectiveOutputPath_self (cfg : Config) (pkg : Package) (outputPkgName : String)
    (h : outputPkgName = pkg.name ∨ cfg.selfPackageFlag = true) :
    effectiveOutputPath cfg pkg outputPkgName pkg.pkgPath = pkg.pkgPath := by
  rcases h with h | h
  · simp [effectiveOutputPath, h]
  · simp [effectiveOutputPath, h]

theorem aliasStep_no_self (pkg : Package) (di : List (String × String))
    (oracle : String → Option String) (st : AliasState) (p : String)
    (h : ∀ kv ∈ st.packageMap, kv.1 ≠ pkg.pkgPath) :
    ∀ kv ∈ (aliasStep pkg di oracle pkg.pkgPath st p).packageMap, kv.1 ≠ pkg.pkgPath := by
  intro kv hkv
  by_cases hp : p = pkg.pkgPath
  · have hstep : aliasStep pkg di oracle pkg.pkgPath st p = st := by
      simp [aliasStep, hp]
    rw [hstep] at hkv
    exact h kv hkv
  · have hcond : (p == pkg.pkgPath && pkg.pkgPath == pkg.pkgPath) = false := by
      simp [hp]
    simp only [aliasStep, hcond, Bool.false_eq_true, if_false] at hkv
    rcases List.mem_append.mp hkv with hkv | hkv
    · exact h kv hkv
    · simp only [List.mem_singleton] at hkv
      rw [hkv]
      exact hp

theorem buildPackageMap_no_self (pkg : Package) (di : List (String × String))
    (oracle : String → Option String) :
    ∀ (paths : List String) (st : AliasState),
      (∀ kv ∈ st.packageMap, kv.1 ≠ pkg.pkgPath) →
      ∀ kv ∈ (paths.foldl (aliasStep pkg di oracle pkg.pkgPath) st).packageMap,
        kv.1 ≠ pkg.pkgPath := by
  intro paths
  induction paths with
  | nil => intro st h; exact h
  | cons p ps ih =>
    intro st h
    exact ih _ (aliasStep_no_self pkg di oracle st p h)

theorem dotLine_inj {p q : String} (h : dotLine p = dotLine q) : p = q := by
  unfold dotLine quote at h
  have h1 := string_append_left_cancel h
  have h2 := string_append_right_cancel h1
  exact string_append_left_cancel h2

/-- C9: when the target output package path equals the source package path,
no alias-map entry exists for that path (so no aliased import line mentions
it, and the `range` over the map cannot emit one even after filtering), no
dot-import line is the self path's line, and a named type from that path
renders without a package qualifier. -/
theorem c9_self_import_elision (cfg : Config) (oracle : String → Option String) (pkg : Package)
    (outputPkgName : String) (mapOrder : List (String × String))
    (hname : outputPkgName = pkg.name ∨ cfg.selfPackageFlag = true)
    (hdot : pkg.pkgPath ∉ pkg.dotImports) :
    (∀ kv ∈ (generate cfg oracle pkg outputPkgName pkg.pkgPath mapOrder).packageMap,
        kv.1 ≠ pkg.pkgPath) ∧
    (∀ kv ∈ (mapOrder.filter fun kv =>
        !(kv.1 == effectiveOutputPath cfg pkg outputPkgName pkg.pkgPath)),
      kv.1 ≠ pkg.pkgPath) ∧
    (∀ l ∈ pkg.dotImports.map dotLine, l ≠ dotLine pkg.pkgPath) ∧
    (∀ nm : String, TypeRepr.render (TypeRepr.named pkg.pkgPath nm)
        (generate cfg oracle pkg outputPkgName pkg.pkgPath mapOrder).packageMap pkg.pkgPath
      = nm) := by
  have heff := effectiveOutputPath_self cfg pkg outputPkgName hname
  refine ⟨?_, ?_, ?_, ?_⟩
  · intro kv hkv
    simp only [generate] at hkv
    rw [buildPackageMap, heff] at hkv
    exact buildPackageMap_no_self pkg cfg.definedImports oracle (requiredPaths pkg) ⟨[], []⟩
      (fun kv h => absurd h (List.not_mem_nil kv)) kv hkv
  · intro kv hkv
    rw [List.mem_filter] at hkv
    have hfilt := hkv.2
    rw [heff] at hfilt
    intro hcon
    rw [hcon] at hfilt
    simp at hfilt
  · intro l hl
    obtain ⟨p, hp, rfl⟩ := List.mem_map.mp hl
    intro hcon
    exact hdot (dotLine_inj hcon ▸ hp)
  · intro nm
    simp [TypeRepr.render]

/-- The C9 witness package: output into its own package path. -/
def selfPathPackage : Package :=
  ⟨"p", "example.com/p", [], [], ["example.com/q"]⟩

/-- The C9 witness configuration: `-self_package` was supplied. -/
def selfFlagConfig : Config := { selfPackageFlag := true }

/-- Witness for C9 at a concrete model: a named type from the self package
renders with no qualifier. -/
theorem c9_witness :
    TypeRepr.render (TypeRepr.named "example.com/p" "X")
      (generate selfFlagConfig emptyOracle selfPathPackage "mock_p" "example.com/p"
        []).packageMap "example.com/p" = "X" := by
  have h := c9_self_import_elision selfFlagConfig emptyOracle selfPathPackage "mock_p" []
    (Or.inr rfl) (by decide)
  exact h.2.2.2 "X"

/-! ### C10: dot imports are emitted verbatim and unconditionally -/

/-- C10: every dot-import path is emitted verbatim as `. "path"` — in model
order, with multiplicity, directly before the import block's closing
parenthesis, with no deduplication and no self-import filtering — and the
alias resolver never sees the dot imports: the alias map is unchanged when
they are removed from the model. -/
theorem c10_dot_imports_verbatim (cfg : Config) (oracle : String → Option String)
    (pkg : Package) (outputPkgName outputPackagePath0 : String)
    (mapOrder : List (String × String)) :
    ((generate cfg oracle pkg outputPkgName outputPackagePath0 mapOrder).lines =
      (headerLines cfg
        ++ [""]
        ++ (if cfg.writePkgComment then
              ["// Package " ++ outputPkgName ++ " is a generated GoMock package."] else [])
        ++ ["package " ++ outputPkgName, "", "import ("]
        ++ aliasedImportLines (effectiveOutputPath cfg pkg outputPkgName outputPackagePath0)
            mapOrder)
      ++ pkg.dotImports.map dotLine
      ++ ")" :: ((if cfg.writeGenerateDirective then
              ["//go:generate " ++ String.intercalate " " cfg.osArgs] else [])
          ++ (pkg.interfaces.flatMap fun intf =>
                generateMockInterfaceLines cfg
                  (generate cfg oracle pkg outputPkgName outputPackagePath0 mapOrder).packageMap
                  intf
                  (effectiveOutputPath cfg pkg outputPkgName outputPackagePath0)))) ∧
    ((generate cfg oracle pkg outputPkgName outputPackagePath0 mapOrder).packageMap =
      (generate cfg oracle ⟨pkg.name, pkg.pkgPath, pkg.interfaces, pkg.imports, []⟩
        outputPkgName outputPackagePath0 mapOrder).packageMap) := by
  constructor
  · simp [generate, List.append_assoc]
  · rfl

/-! ### C1: determinism of `Generate` followed by `Output`

The only nondeterminism in a run is Go's randomized map-iteration order at
line 453 (`for pkgPath, pkgName := range g.packageMap`), captured by the
`mapOrder` argument of `generate`; every other intermediate (the sorted
path list, the alias map, the per-interface blocks) is a pure function of
the model, the configuration and the oracle.  `Output`'s normalization puts
the import block into canonical order, so the emitted bytes agree for any
two iteration orders. -/

theorem normalizeImports_append (A B : List String)
    (hA : ∀ l ∈ A, l ≠ "import (") :
    normalizeImports (A ++ "import (" :: B) = A ++ "import (" :: sortBlock B := by
  induction A with
  | nil => simp [normalizeImports]
  | cons a A ih =>
    have ha : a ≠ "import (" := hA a (List.mem_cons_self a A)
    have hbeq : (a == "import (") = false := beq_eq_false_iff_ne.mpr ha
    simp only [List.cons_append, normalizeImports, hbeq, Bool.false_eq_true, if_false,
      List.append_eq]
    rw [ih fun l hl => hA l (List.mem_cons_of_mem a hl)]

theorem takeWhile_append_stop {α : Type} (p : α → Bool) :
    ∀ (X : List α) (y : α) (Y : List α), (∀ x ∈ X, p x = true) → p y = false →
      (X ++ y :: Y).takeWhile p = X ∧ (X ++ y :: Y).dropWhile p = y :: Y := by
  intro X
  induction X with
  | nil =>
    intro y Y _ hy
    simp [List.takeWhile, List.dropWhile, hy]
  | cons x X ih =>
    intro y Y hX hy
    have hx : p x = true := hX x (List.mem_cons_self x X)
    have hrest := ih y Y (fun a ha => hX a (List.mem_cons_of_mem x ha)) hy
    simp [List.takeWhile_cons, List.dropWhile_cons, hx, hrest.1, hrest.2]

theorem sortBlock_split (X Y : List String) (hX : ∀ x ∈ X, (!(x == ")")) = true) :
    sortBlock (X ++ ")" :: Y) = sortStrings X ++ ")" :: Y := by
  obtain ⟨ht, hd⟩ := takeWhile_append_stop (fun l => !(l == ")")) X ")" Y hX (by decide)
  simp only [sortBlock, ht, hd]

theorem aliasedImportLine_head (kv : String × String) :
    (aliasedImportLine kv).data.head? = some '\x09' :=
  head_of_append _ (head_of_append _ (head_of_append _ (by decide)))

theorem dotLine_head (p : String) : (dotLine p).data.head? = some '\x09' :=
  head_of_append _ (by decide)

theorem importBlock_no_paren (outPath : String) (order : List (String × String))
    (dots : List String) :
    ∀ x ∈ aliasedImportLines outPath order ++ dots.map dotLine, (!(x == ")")) = true := by
  intro x hx
  rcases List.mem_append.mp hx with hx | hx
  · obtain ⟨kv, _, rfl⟩ := List.mem_map.mp hx
    exact tab_line_ne_paren (aliasedImportLine_head kv)
  · obtain ⟨p, _, rfl⟩ := List.mem_map.mp hx
    exact tab_line_ne_paren (dotLine_head p)

theorem headerLines_shape (cfg : Config) :
    ∀ l ∈ headerLines cfg, l = "" ∨ l.data.head? = some '/' := by
  intro l hl
  simp only [headerLines, List.append_assoc, List.mem_append] at hl
  rcases hl with h | h | h | h | h
  · have h' := mem_of_mem_ite_nil h
    rcases List.mem_append.mp h' with hm | hs
    · obtain ⟨x, _, rfl⟩ := List.mem_map.mp hm
      exact Or.inr (head_of_append x (by decide))
    · exact Or.inl (by simpa using hs)
  · have h' := mem_of_mem_ite_nil h
    rcases List.mem_cons.mp h' with rfl | h''
    · exact Or.inr (head_of_append cfg.buildConstraint (by decide))
    · exact Or.inl (by simpa using h'')
  · rcases List.mem_cons.mp h with rfl | h''
    · exact Or.inr (by decide)
    · exact absurd h'' (List.not_mem_nil l)
  · have h' := mem_of_mem_ite_nil h
    rcases List.mem_cons.mp h' with rfl | h''
    · split
      · exact Or.inr (head_of_append cfg.filename
          (show ("// Source: " : String).data.head? = some '/' by decide))
      · exact Or.inr (head_of_append _ (head_of_append _ (head_of_append _
          (show ("// Source: " : String).data.head? = some '/' by decide))))
    · exact absurd h'' (List.not_mem_nil _)
  · have h' := mem_of_mem_ite_nil h
    simp only [List.mem_cons, List.mem_singleton] at h'
    rcases h' with rfl | rfl | rfl | rfl | h''
    · exact Or.inr (by decide)
    · exact Or.inr (by decide)
    · exact Or.inr (by decide)
    · exact Or.inr (head_of_append _ (by decide))
    · rcases h'' with rfl | h'''
      · exact Or.inr (by decide)
      · exact absurd h''' (List.not_mem_nil _)

/-- No line emitted before the import block is the `import (` marker, so the
normalization pass finds the real block. -/
theorem prefix_no_import_marker (cfg : Config) (outputPkgName : String) :
    ∀ l ∈ headerLines cfg ++ [""]
        ++ (if cfg.writePkgComment then
              ["// Package " ++ outputPkgName ++ " is a generated GoMock package."] else [])
        ++ ["package " ++ outputPkgName, ""],
      l ≠ "import (" := by
  intro l hl
  simp only [List.append_assoc, List.mem_append] at hl
  rcases hl with h | h | h | h
  · rcases headerLines_shape cfg l h with rfl | hh
    · decide
    · exact ne_of_head hh import_marker_head (by decide)
  · have : l = "" := by simpa using h
    subst this; decide
  · have h' := mem_of_mem_ite_nil h
    have : l = "// Package " ++ outputPkgName ++ " is a generated GoMock package." := by
      simpa using h'
    subst this
    exact ne_of_head
      (head_of_append _ (head_of_append _
        (show ("// Package " : String).data.head? = some '/' by decide)))
      import_marker_head (by decide)
  · simp only [List.mem_cons, List.mem_singleton] at h
    rcases h with rfl | rfl | h''
    · exact pkg_append_ne_import outputPkgName
    · decide
    · exact absurd h'' (List.not_mem_nil _)

theorem outputLines_normalized (cfg : Config) (oracle : String → Option String)
    (pkg : Package) (outputPkgName outputPackagePath0 : String)
    (mapOrder : List (String × String)) :
    outputLines cfg oracle pkg outputPkgName outputPackagePath0 mapOrder =
      (headerLines cfg ++ [""]
        ++ (if cfg.writePkgComment then
              ["// Package " ++ outputPkgName ++ " is a generated GoMock package."] else [])
        ++ ["package " ++ outputPkgName, ""])
      ++ "import ("
        :: (sortStrings
              (aliasedImportLines
                  (effectiveOutputPath cfg pkg outputPkgName outputPackagePath0) mapOrder
                ++ pkg.dotImports.map dotLine)
            ++ ")"
            :: ((if cfg.writeGenerateDirective then
                  ["//go:generate " ++ String.intercalate " " cfg.osArgs] else [])
              ++ (pkg.interfaces.flatMap fun intf =>
                    generateMockInterfaceLines cfg
                      (buildPackageMap pkg cfg oracle
                        (effectiveOutputPath cfg pkg outputPkgName outputPackagePath0)).packageMap
                      intf
                      (effectiveOutputPath cfg pkg outputPkgName outputPackagePath0)))) := by
  have hsplit : (generate cfg oracle pkg outputPkgName outputPackagePath0 mapOrder).lines =
      (headerLines cfg ++ [""]
        ++ (if cfg.writePkgComment then
              ["// Package " ++ outputPkgName ++ " is a generated GoMock package."] else [])
        ++ ["package " ++ outputPkgName, ""])
      ++ "import ("
        :: ((aliasedImportLines
              (effectiveOutputPath cfg pkg outputPkgName outputPackagePath0) mapOrder
            ++ pkg.dotImports.map dotLine)
          ++ ")"
          :: ((if cfg.writeGenerateDirective then
                ["//go:generate " ++ String.intercalate " " cfg.osArgs] else [])
            ++ (pkg.interfaces.flatMap fun intf =>
                  generateMockInterfaceLines cfg
                    (buildPackageMap pkg cfg oracle
                      (effectiveOutputPath cfg pkg outputPkgName outputPackagePath0)).packageMap
                    intf
                    (effectiveOutputPath cfg pkg outputPkgName outputPackagePath0)))) := by
    simp [generate, List.append_assoc]
  unfold outputLines
  rw [hsplit]
  rw [normalizeImports_append _ _ (prefix_no_import_marker cfg outputPkgName)]
  rw [sortBlock_split _ _ (importBlock_no_paren _ mapOrder pkg.dotImports)]

/-- C1: for a fixed input model, fixed configuration and fixed oracle, two
runs of `Generate` followed by `Output` produce byte-identical text, no
matter in which orders the two runs' map iterations happened to enumerate
the alias map. -/
theorem c1_deterministic_output (cfg : Config) (oracle : String → Option String)
    (pkg : Package) (outputPkgName outputPackagePath0 : String)
    (order1 order2 : List (String × String))
    (h1 : order1.Perm
      (generate cfg oracle pkg outputPkgName outputPackagePath0 order1).packageMap)
    (h2 : order2.Perm
      (generate cfg oracle pkg outputPkgName outputPackagePath0 order2).packageMap) :
    outputText cfg oracle pkg outputPkgName outputPackagePath0 order1 =
      outputText cfg oracle pkg outputPkgName outputPackagePath0 order2 := by
  have hperm : order1.Perm order2 := by
    exact h1.trans h2.symm
  have hlines : aliasedImportLines
      (effectiveOutputPath cfg pkg outputPkgName outputPackagePath0) order1 ++
        pkg.dotImports.map dotLine
      |>.Perm (aliasedImportLines
        (effectiveOutputPath cfg pkg outputPkgName outputPackagePath0) order2 ++
          pkg.dotImports.map dotLine) :=
    List.Perm.append_right _ (List.Perm.map _ (List.Perm.filter _ hperm))
  have hsort := sortStrings_eq_of_perm hlines
  unfold outputText
  rw [outputLines_normalized, outputLines_normalized, hsort]

/-- The C1 witness package: one interface with one method, so the alias map
has the two entries `gomock` and `reflect`. -/
def twoImportPackage : Package :=
  ⟨"p", "example.com/p", [⟨"I", [⟨"Do", [], [], none⟩], []⟩], [], []⟩

/-- Witness for C1: running with the alias map enumerated forwards and
backwards yields the same output text. -/
theorem c1_witness :
    outputText plainConfig emptyOracle twoImportPackage "mock_p" ""
        [("go.uber.org/mock/gomock", "gomock"), ("reflect", "reflect")] =
      outputText plainConfig emptyOracle twoImportPackage "mock_p" ""
        [("reflect", "reflect"), ("go.uber.org/mock/gomock", "gomock")] := by
  exact c1_deterministic_output plainConfig emptyOracle twoImportPackage "mock_p" ""
    [("go.uber.org/mock/gomock", "gomock"), ("reflect", "reflect")]
    [("reflect", "reflect"), ("go.uber.org/mock/gomock", "gomock")]
    (by decide) (by decide)

end Mockgen
